import Mathlib

/-!
Verification of the MLDB percentile bucketize procedure
(`plugins/bucketize_procedure.cc`) and of the JSON-lines importer
(`plugins/json_importer.cc`).

Modelling conventions:
* C++ `float` percentile bounds are modelled as exact rationals (`ℚ`);
  floating-point rounding of the arithmetic itself is outside the model,
  the formulas are evaluated exactly.
* `int64_t` values are modelled as unbounded integers (`ℤ`); the cast
  `int64_t(x)` (truncation toward zero) is modelled by `cppTrunc`.
* The worker pool (`parallelMap`) and `PerThreadAccumulator` live outside
  the two source files; following the specification they are modelled as
  explicit per-thread schedules of index lists, with each thread owning
  its accumulating batch exclusively.
-/

namespace Bucketize

/-- Truncation of a rational toward zero, as the C++ cast `int64_t(x)`
performs on the (exactly modelled) floating-point value. -/
def cppTrunc (q : ℚ) : ℤ := Int.tdiv q.num (q.den : ℤ)

theorem cppTrunc_eq_floor {q : ℚ} (h : 0 ≤ q) : cppTrunc q = ⌊q⌋ := by
  have hnum : 0 ≤ q.num := Rat.num_nonneg.mpr h
  have hden : (0 : ℤ) ≤ (q.den : ℤ) := Int.ofNat_nonneg q.den
  rw [cppTrunc, Int.tdiv_eq_ediv hnum hden, Rat.floor_def]

/-- Lower index of a percentile window.  Models
`int64_t lowerBound = range.second == 0 ? 0 : int64_t(range.first / 100 * rowCount);`
from `BucketizeProcedure::run`.  Note that the guard of the conditional
tests the HIGH bound (`range.second`) of the range, not the low bound. -/
def lowerBound (range : ℚ × ℚ) (rowCount : ℤ) : ℤ :=
  if range.2 = 0 then 0 else cppTrunc (range.1 / 100 * (rowCount : ℚ))

/-- Higher index of a percentile window.  Models
`int64_t higherBound = range.second == 100 ? rowCount : int64_t(range.second / 100 * rowCount);`
from `BucketizeProcedure::run`. -/
def higherBound (range : ℚ × ℚ) (rowCount : ℤ) : ℤ :=
  if range.2 = 100 then rowCount else cppTrunc (range.2 / 100 * (rowCount : ℚ))

/-! ### Range validation (`BucketizeProcedureConfigDescription::onPostValidate`) -/

/-- The four ways a percentile range can fail validation, in the order the
checks appear in `onPostValidate`. -/
inductive RangeError where
  | lowerBelowZero
  | upperAboveHundred
  | upperNotGreater
  | overlapping
deriving DecidableEq, Repr

/-- One iteration of the validation loop: the current range is checked
against the global bounds and against the previously accepted range
(`last`), in source order. -/
def checkRange (last range : ℚ × ℚ) : Except RangeError Unit :=
  if range.1 < 0 then .error .lowerBelowZero
  else if range.2 > 100 then .error .upperAboveHundred
  else if range.1 ≥ range.2 then .error .upperNotGreater
  else if range.1 < last.2 then .error .overlapping
  else .ok ()

/-- The validation loop over the sorted ranges, carrying the previously
accepted range. -/
def validateLoop : (ℚ × ℚ) → List (ℚ × ℚ) → Except RangeError Unit
  | _, [] => .ok ()
  | last, r :: rest =>
    match checkRange last r with
    | .error e => .error e
    | .ok () => validateLoop r rest

/-- A bucket configuration: association list of bucket name to
`(low, high)` percentile range, in the iteration order of the C++
`std::map` (i.e. bucket-name order). -/
abbrev BucketConfig := List (String × ℚ × ℚ)

/-- The ranges of a configuration, sorted by low bound, as
`onPostValidate` builds them before checking. -/
def sortRanges (buckets : BucketConfig) : List (ℚ × ℚ) :=
  (buckets.map (fun b => b.2)).mergeSort (fun a b => decide (a.1 ≤ b.1))

/-- Models `onPostValidate`: sort the ranges by low bound and run the
checks with the sentinel previous range `(-1, -1)`.  (The additional
`MustContainFrom` check on the input query is a delegated collaborator
contract on the SQL layer, outside the range validator.) -/
def validateConfig (buckets : BucketConfig) : Except RangeError Unit :=
  validateLoop (-1, -1) (sortRanges buckets)

/-- Declarative well-formedness of a sorted range list, as the spec states
it: every range has `0 ≤ low`, `high ≤ 100`, `low < high`, and each
range's low bound is at least the previous range's high bound. -/
def GoodRanges (l : List (ℚ × ℚ)) : Prop :=
  (∀ r ∈ l, 0 ≤ r.1 ∧ r.2 ≤ 100 ∧ r.1 < r.2) ∧ l.Chain' (fun a b => a.2 ≤ b.1)

theorem validateLoop_ok_iff (last : ℚ × ℚ) (l : List (ℚ × ℚ)) :
    validateLoop last l = .ok () ↔
      (∀ r ∈ l, 0 ≤ r.1 ∧ r.2 ≤ 100 ∧ r.1 < r.2) ∧
        List.Chain' (fun a b : ℚ × ℚ => a.2 ≤ b.1) (last :: l) := by
  induction l generalizing last with
  | nil => simp [validateLoop]
  | cons r rest ih =>
    rw [validateLoop]
    unfold checkRange
    by_cases h1 : r.1 < 0
    · simp only [if_pos h1]
      constructor
      · intro h; cases h
      · rintro ⟨hmem, -⟩
        exact absurd (hmem r (by simp)).1 (not_le.mpr h1)
    · by_cases h2 : r.2 > 100
      · simp only [if_neg h1, if_pos h2]
        constructor
        · intro h; cases h
        · rintro ⟨hmem, -⟩
          exact absurd (hmem r (by simp)).2.1 (not_le.mpr h2)
      · by_cases h3 : r.1 ≥ r.2
        · simp only [if_neg h1, if_neg h2, if_pos h3]
          constructor
          · intro h; cases h
          · rintro ⟨hmem, -⟩
            exact absurd (hmem r (by simp)).2.2 (not_lt.mpr h3)
        · by_cases h4 : r.1 < last.2
          · simp only [if_neg h1, if_neg h2, if_neg h3, if_pos h4]
            constructor
            · intro h; cases h
            · rintro ⟨-, hchain⟩
              exact absurd (List.chain'_cons.mp hchain).1 (not_le.mpr h4)
          · simp only [if_neg h1, if_neg h2, if_neg h3, if_neg h4]
            rw [ih r]
            constructor
            · rintro ⟨hmem, hchain⟩
              refine ⟨?_, List.chain'_cons.mpr ⟨not_lt.mp h4, hchain⟩⟩
              intro x hx
              rcases List.mem_cons.mp hx with hx | hx
              · subst hx
                exact ⟨not_lt.mp h1, not_lt.mp h2, not_le.mp h3⟩
              · exact hmem x hx
            · rintro ⟨hmem, hchain⟩
              exact ⟨fun x hx => hmem x (List.mem_cons_of_mem _ hx),
                (List.chain'_cons.mp hchain).2⟩

theorem validateConfig_ok_iff (buckets : BucketConfig) :
    validateConfig buckets = .ok () ↔ GoodRanges (sortRanges buckets) := by
  rw [validateConfig, validateLoop_ok_iff, GoodRanges]
  constructor
  · rintro ⟨hmem, hchain⟩
    exact ⟨hmem, (List.chain'_cons'.mp hchain).2⟩
  · rintro ⟨hmem, hchain⟩
    refine ⟨hmem, List.chain'_cons'.mpr ⟨?_, hchain⟩⟩
    intro y hy
    have : 0 ≤ y.1 := (hmem y (List.mem_of_mem_head? hy)).1
    calc ((-1 : ℚ), (-1 : ℚ)).2 = -1 := rfl
    _ ≤ 0 := by norm_num
    _ ≤ y.1 := this

theorem sortRanges_eq_of_sorted {buckets : BucketConfig}
    (h : (buckets.map (fun b => b.2)).Pairwise (fun a b => a.1 ≤ b.1)) :
    sortRanges buckets = buckets.map (fun b => b.2) :=
  List.mergeSort_of_sorted (h.imp fun hab => decide_eq_true hab)

/-- Claim C3: configuration validation fails if and only if, after sorting
the bucket ranges by their low bound, some range violates one of the
checks (low ≥ 0, high ≤ 100, low < high, low ≥ previous accepted range's
high, previous initialized to the sentinel (-1,-1) which is subsumed by
low ≥ 0); ranges that merely touch are accepted and the overlapping pair
{"a":[0,60],"b":[50,100]} is rejected with the overlap error.  Validation
is a pure function of the configuration alone — no row data appears in
it, so failure happens before any row is processed. -/
theorem claim_C3 :
    (∀ buckets : BucketConfig,
        validateConfig buckets = .ok () ↔ GoodRanges (sortRanges buckets)) ∧
      validateConfig [("a", (0, 50)), ("b", (50, 100))] = .ok () ∧
      validateConfig [("a", (0, 60)), ("b", (50, 100))] = .error .overlapping := by
  refine ⟨validateConfig_ok_iff, ?_, ?_⟩
  · rw [validateConfig, sortRanges_eq_of_sorted (by decide)]
    rfl
  · rw [validateConfig, sortRanges_eq_of_sorted (by decide)]
    rfl

theorem cppTrunc_zero : cppTrunc 0 = 0 := rfl

theorem lowerBound_eq_floor {low high : ℚ} {rowCount : ℤ}
    (h0 : 0 ≤ low) (hlh : low < high) (hN : 0 ≤ rowCount) :
    lowerBound (low, high) rowCount = ⌊low / 100 * (rowCount : ℚ)⌋ := by
  have hhigh : (low, high).2 ≠ 0 := ne_of_gt (lt_of_le_of_lt h0 hlh)
  rw [lowerBound, if_neg hhigh]
  exact cppTrunc_eq_floor
    (mul_nonneg (div_nonneg h0 (by norm_num)) (by exact_mod_cast hN))

/-- Claim C1: for a validated range `(low, high)` (0 ≤ low < high ≤ 100)
and row count N ≥ 0, the window is `loIdx = 0` if `low = 0` and
`⌊low/100·N⌋` otherwise, `hiIdx = N` if `high = 100` and `⌊high/100·N⌋`
otherwise; in particular the range `(0, 100)` maps exactly to `[0, N)`. -/
theorem claim_C1 (low high : ℚ) (rowCount : ℤ)
    (h0 : 0 ≤ low) (hlh : low < high) (h100 : high ≤ 100) (hN : 0 ≤ rowCount) :
    lowerBound (low, high) rowCount
        = (if low = 0 then 0 else ⌊low / 100 * (rowCount : ℚ)⌋) ∧
      higherBound (low, high) rowCount
        = (if high = 100 then rowCount else ⌊high / 100 * (rowCount : ℚ)⌋) ∧
      lowerBound (0, 100) rowCount = 0 ∧ higherBound (0, 100) rowCount = rowCount := by
  have hfloor := lowerBound_eq_floor h0 hlh hN
  refine ⟨?_, ?_, ?_, ?_⟩
  · by_cases hl : low = 0
    · subst hl
      rw [if_pos rfl, hfloor]
      norm_num
    · rw [if_neg hl, hfloor]
  · by_cases hh : high = 100
    · rw [if_pos hh, higherBound, if_pos hh]
    · have hnn : 0 ≤ high := le_of_lt (lt_of_le_of_lt h0 hlh)
      rw [if_neg hh, higherBound, if_neg hh]
      exact cppTrunc_eq_floor
        (mul_nonneg (div_nonneg hnn (by norm_num)) (by exact_mod_cast hN))
  · have h : ((0 : ℚ), (100 : ℚ)).1 / 100 * (rowCount : ℚ) = 0 := by norm_num
    rw [lowerBound, if_neg (by norm_num : ((0 : ℚ), (100 : ℚ)).2 ≠ 0), h, cppTrunc_zero]
  · rw [higherBound, if_pos rfl]

theorem claim_C1_witness :
    (0 : ℚ) ≤ 25 ∧ (25 : ℚ) < 75 ∧ (75 : ℚ) ≤ 100 ∧ (0 : ℤ) ≤ 10 ∧
      (lowerBound (25, 75) 10
          = (if (25 : ℚ) = 0 then 0 else ⌊(25 : ℚ) / 100 * ((10 : ℤ) : ℚ)⌋) ∧
        higherBound (25, 75) 10
          = (if (75 : ℚ) = 100 then (10 : ℤ) else ⌊(75 : ℚ) / 100 * ((10 : ℤ) : ℚ)⌋) ∧
        lowerBound (0, 100) 10 = 0 ∧ higherBound (0, 100) 10 = 10) :=
  ⟨by norm_num, by norm_num, by norm_num, by norm_num,
    claim_C1 25 75 10 (by norm_num) (by norm_num) (by norm_num) (by norm_num)⟩

theorem windowBounds {low high : ℚ} {rowCount : ℤ}
    (h0 : 0 ≤ low) (hlh : low < high) (h100 : high ≤ 100) (hN : 0 ≤ rowCount) :
    0 ≤ lowerBound (low, high) rowCount ∧
      lowerBound (low, high) rowCount ≤ higherBound (low, high) rowCount ∧
      higherBound (low, high) rowCount ≤ rowCount := by
  have hfloor := lowerBound_eq_floor h0 hlh hN
  have hNq : (0 : ℚ) ≤ (rowCount : ℚ) := by exact_mod_cast hN
  have hhigh0 : (0 : ℚ) ≤ high := le_of_lt (lt_of_le_of_lt h0 hlh)
  have hlo_le_N : low / 100 * (rowCount : ℚ) ≤ (rowCount : ℚ) := by
    apply mul_le_of_le_one_left hNq
    rw [div_le_one (by norm_num)]
    exact le_trans (le_of_lt hlh) h100
  have hhi_le_N : high / 100 * (rowCount : ℚ) ≤ (rowCount : ℚ) := by
    apply mul_le_of_le_one_left hNq
    rw [div_le_one (by norm_num)]
    exact h100
  refine ⟨?_, ?_, ?_⟩
  · rw [hfloor]
    exact Int.le_floor.mpr
      (by exact_mod_cast mul_nonneg (div_nonneg h0 (by norm_num)) hNq)
  · by_cases hh : high = 100
    · rw [hfloor, higherBound, if_pos hh]
      calc ⌊low / 100 * (rowCount : ℚ)⌋ ≤ ⌊(rowCount : ℚ)⌋ :=
            Int.floor_le_floor hlo_le_N
      _ = rowCount := Int.floor_intCast rowCount
    · rw [hfloor, higherBound, if_neg hh, cppTrunc_eq_floor
        (mul_nonneg (div_nonneg hhigh0 (by norm_num)) hNq)]
      apply Int.floor_le_floor
      apply mul_le_mul_of_nonneg_right _ hNq
      exact (div_le_div_iff_of_pos_right (by norm_num)).mpr (le_of_lt hlh)
  · by_cases hh : high = 100
    · rw [higherBound, if_pos hh]
    · rw [higherBound, if_neg hh, cppTrunc_eq_floor
        (mul_nonneg (div_nonneg hhigh0 (by norm_num)) hNq)]
      calc ⌊high / 100 * (rowCount : ℚ)⌋ ≤ ⌊(rowCount : ℚ)⌋ :=
            Int.floor_le_floor hhi_le_N
      _ = rowCount := Int.floor_intCast rowCount

/-- Claim C4: for every validated range (0 ≤ low < high ≤ 100) and every
row count N ≥ 0, the computed window satisfies
`0 ≤ loIdx ≤ hiIdx ≤ N`, so the post-computation assertion
`ExcAssert(higherBound <= rowCount)` never fires. -/
theorem claim_C4 (low high : ℚ) (rowCount : ℤ)
    (h0 : 0 ≤ low) (hlh : low < high) (h100 : high ≤ 100) (hN : 0 ≤ rowCount) :
    0 ≤ lowerBound (low, high) rowCount ∧
      lowerBound (low, high) rowCount ≤ higherBound (low, high) rowCount ∧
      higherBound (low, high) rowCount ≤ rowCount :=
  windowBounds h0 hlh h100 hN

theorem claim_C4_witness :
    (0 : ℚ) ≤ 30 ∧ (30 : ℚ) < 70 ∧ (70 : ℚ) ≤ 100 ∧ (0 : ℤ) ≤ 9 ∧
      (0 ≤ lowerBound (30, 70) 9 ∧
        lowerBound (30, 70) 9 ≤ higherBound (30, 70) 9 ∧
        higherBound (30, 70) 9 ≤ 9) :=
  ⟨by norm_num, by norm_num, by norm_num, by norm_num,
    claim_C4 30 70 9 (by norm_num) (by norm_num) (by norm_num) (by norm_num)⟩

/-- Claim C10: the guard of the lower-bound computation tests whether the
range's HIGH bound equals 0, not its low bound: a range with high = 0
takes the constant-0 branch regardless of its low bound, while under the
validated precondition 0 ≤ low < high the guard is never taken, so the
lower index is always computed as the arithmetic
`int64_t(low / 100 * rowCount)`; a validated range with low = 0 obtains
index 0 only through that arithmetic. -/
theorem claim_C10 :
    (∀ low : ℚ, ∀ N : ℤ, lowerBound (low, 0) N = 0) ∧
      (∀ low high : ℚ, ∀ N : ℤ, 0 ≤ low → low < high →
        lowerBound (low, high) N = cppTrunc (low / 100 * (N : ℚ))) ∧
      (∀ high : ℚ, ∀ N : ℤ, 0 < high →
        lowerBound (0, high) N = cppTrunc ((0 : ℚ) / 100 * (N : ℚ)) ∧
          cppTrunc ((0 : ℚ) / 100 * (N : ℚ)) = 0) := by
  refine ⟨?_, ?_, ?_⟩
  · intro low N
    rw [lowerBound, if_pos rfl]
  · intro low high N h0 hlh
    rw [lowerBound, if_neg (ne_of_gt (lt_of_le_of_lt h0 hlh))]
  · intro high N hh
    refine ⟨?_, ?_⟩
    · rw [lowerBound, if_neg (ne_of_gt hh)]
    · have h : (0 : ℚ) / 100 * (N : ℚ) = 0 := by norm_num
      rw [h, cppTrunc_zero]

theorem claim_C10_witness :
    lowerBound ((3 : ℚ), (0 : ℚ)) 5 = 0 ∧ (0 : ℚ) ≤ 0 ∧ (0 : ℚ) < 50 ∧
      lowerBound (0, 50) 8 = cppTrunc ((0 : ℚ) / 100 * ((8 : ℤ) : ℚ)) :=
  ⟨claim_C10.1 3 5, le_rfl, by norm_num, claim_C10.2.1 0 50 8 le_rfl (by norm_num)⟩

/-! ### Row collection (the `getSize` callback of `BucketizeProcedure::run`) -/

/-- A collected input row: its row name and, for each order-by clause, the
value of the `latest_timestamp` calc expression; `none` models a value
whose `toTimestamp()` is not a date, `some t` a defined timestamp `t`. -/
abbrev InputRow := String × List (Option ℤ)

/-- `Date::setMax` on the running maximum, whose start value
`Date::negativeInfinity()` is modelled by `none`. -/
def dateSetMax (acc : Option ℤ) (t : ℤ) : Option ℤ :=
  match acc with
  | none => some t
  | some a => some (max a t)

/-- The per-row body of the `getSize` callback: every calc value whose
timestamp `isADate()` is folded into the running maximum, and the row
name is appended to the ordered sequence (kept by the folds below). -/
def rowMaxTs (acc : Option ℤ) (row : InputRow) : Option ℤ :=
  row.2.foldl (fun a c => match c with | some t => dateSetMax a t | none => a) acc

/-- `globalMaxOrderByTimestamp` after the whole scan. -/
def globalMaxOrderByTimestamp (rows : List InputRow) : Option ℤ :=
  rows.foldl rowMaxTs none

/-- `orderedRowNames` after the scan; the rank of a row is its position. -/
def orderedRowNames (rows : List InputRow) : List String :=
  rows.map (fun r => r.1)

/-- All defined timestamps observed during the scan, in scan order. -/
def definedTs (rows : List InputRow) : List ℤ :=
  rows.flatMap (fun r => r.2.filterMap id)

/-! ### Bucket windows and recorded entries -/

/-- One output cell, as in `typedef tuple<ColumnName, CellValue, Date> Cell`. -/
abbrev Cell := String × String × Option ℤ

/-- One recorded row `pair<RowName, vector<Cell>>`. -/
abbrev Entry := String × List Cell

/-- The single-cell row value built once per bucket before its window is
processed: `{("bucket", bucketName, globalMaxOrderByTimestamp)}`. -/
def rowValue (bucketName : String) (ts : Option ℤ) : List Cell :=
  [("bucket", bucketName, ts)]

/-- The half-open window `[lo, hi)` that `parallelMap(lowerBound,
higherBound, applyFct)` iterates, as the list of its indices. -/
def windowIdxList (lo hi : ℤ) : List ℤ :=
  (List.range (hi - lo).toNat).map (fun k : ℕ => lo + (k : ℤ))

/-- The entry `applyFct` appends for index `i`:
`(orderedRowNames[index], rowValue)`. -/
def entryAt (names : List String) (cells : List Cell) (i : ℤ) : Entry :=
  (names.getD i.toNat "", cells)

/-- All entries of one bucket's window, in index order. -/
def bucketEntries (names : List String) (ts : Option ℤ) (N : ℤ)
    (b : String × ℚ × ℚ) : List Entry :=
  (windowIdxList (lowerBound b.2 N) (higherBound b.2 N)).map
    (entryAt names (rowValue b.1 ts))

/-- All entries of the run, bucket window after bucket window, in the
declaration (map-iteration) order of `percentileBuckets`. -/
def allEntries (names : List String) (ts : Option ℤ) (N : ℤ)
    (buckets : BucketConfig) : List Entry :=
  buckets.flatMap (bucketEntries names ts N)

/-! ### Thread-local batching (`applyFct` with `PerThreadAccumulator`) -/

/-- Modelled from the spec: `parallelMap` hands each index of a window to
some worker thread and each worker owns its accumulator batch
(`accum.get()`) exclusively.  `runThread` replays one thread's sequence
of appends: each entry is pushed onto the batch and, as soon as the batch
holds 1024 entries, the batch is handed to `recordRows` (a flushed batch)
and cleared.  Returns the flushed batches in flush order together with
the leftover batch still in the accumulator. -/
def runThread {α : Type} : List α → List α → List (List α) × List α
  | batch, [] => ([], batch)
  | batch, x :: rest =>
    if 1024 ≤ (batch ++ [x]).length then
      ((batch ++ [x]) :: (runThread [] rest).1, (runThread [] rest).2)
    else runThread (batch ++ [x]) rest

/-- The successive batch contents observed immediately after each append
(before the threshold test clears a full batch). -/
def batchStates {α : Type} : List α → List α → List (List α)
  | _, [] => []
  | batch, x :: rest =>
    if 1024 ≤ (batch ++ [x]).length then (batch ++ [x]) :: batchStates [] rest
    else (batch ++ [x]) :: batchStates (batch ++ [x]) rest

/-- Modelled from the spec: thread `t`'s full input stream over the run.
The bucket windows are processed strictly one after the other; within
window `w` the schedule assigns thread `t` the index list
`(scheds[w]).getD t []`, processed in that order.  The same thread keeps
its accumulator across windows (`accum` is declared outside the bucket
loop in the source). -/
def threadStream (names : List String) (ts : Option ℤ) (buckets : BucketConfig)
    (scheds : List (List (List ℤ))) (t : ℕ) : List Entry :=
  (buckets.zip scheds).flatMap
    (fun p => (p.2.getD t []).map (entryAt names (rowValue p.1.1 ts)))

/-- A schedule is valid for a run when it is aligned with the bucket
list, uses at most `T` worker threads per window, and assigns the indices
of each window exactly once across the threads (in any distribution and
per-thread order — this is what `parallelMap` guarantees). -/
def ValidScheds (N : ℤ) (buckets : BucketConfig)
    (scheds : List (List (List ℤ))) (T : ℕ) : Prop :=
  List.Forall₂ (fun (b : String × ℚ × ℚ) (s : List (List ℤ)) =>
    s.length ≤ T ∧
      (s.flatten).Perm (windowIdxList (lowerBound b.2 N) (higherBound b.2 N)))
    buckets scheds

/-- Everything the run hands to `recordRows`: for every worker thread the
batches it flushed at the 1024 threshold while processing the bucket
windows in sequence, and — only after ALL windows are done, since
`accum.forEach` runs after the bucket loop — the drain of its leftover
batch. -/
def runRecorded (rows : List InputRow) (buckets : BucketConfig)
    (scheds : List (List (List ℤ))) (T : ℕ) : List Entry :=
  (List.range T).flatMap (fun t =>
    (runThread [] (threadStream (orderedRowNames rows)
        (globalMaxOrderByTimestamp rows) buckets scheds t)).1.flatten ++
      (runThread [] (threadStream (orderedRowNames rows)
        (globalMaxOrderByTimestamp rows) buckets scheds t)).2)

/-- The batches thread `t` has handed to `recordRows` strictly before
window `k`'s fan-out starts: per-thread processing is sequential, so
these are exactly the threshold flushes triggered while processing
windows `0..k-1` (the drain of leftovers only happens after the last
window). -/
def flushedBeforeWindow (rows : List InputRow) (buckets : BucketConfig)
    (scheds : List (List (List ℤ))) (k : ℕ) (t : ℕ) : List (List Entry) :=
  (runThread [] (threadStream (orderedRowNames rows)
    (globalMaxOrderByTimestamp rows) (buckets.take k) (scheds.take k) t)).1

/-- The property claim C6 asserts of the code: every thread's remaining
sub-1024 batch is drained and flushed to the output store before the next
bucket window's fan-out starts, i.e. whenever a window `k+1` exists,
every entry of windows `0..k` has already been handed to `recordRows`
when window `k+1` begins. -/
def DrainedBeforeNextWindow (rows : List InputRow) (buckets : BucketConfig)
    (scheds : List (List (List ℤ))) (T : ℕ) : Prop :=
  ∀ k, k + 1 < buckets.length →
    ∀ e ∈ allEntries (orderedRowNames rows) (globalMaxOrderByTimestamp rows)
        ((orderedRowNames rows).length : ℤ) (buckets.take (k+1)),
      e ∈ (List.range T).flatMap
        (fun t => (flushedBeforeWindow rows buckets scheds (k+1) t).flatten)

/-! ### Batching lemmas -/

theorem runThread_join {α : Type} (batch xs : List α) :
    ((runThread batch xs).1).flatten ++ (runThread batch xs).2 = batch ++ xs := by
  induction xs generalizing batch with
  | nil => simp [runThread]
  | cons x rest ih =>
    rw [runThread]
    by_cases h : 1024 ≤ (batch ++ [x]).length
    · simp only [if_pos h, List.flatten_cons, List.append_assoc]
      rw [ih []]
      simp
    · simp only [if_neg h]
      rw [ih (batch ++ [x])]
      simp

theorem runThread_append {α : Type} (batch s₁ s₂ : List α) :
    (runThread batch (s₁ ++ s₂)).1
        = (runThread batch s₁).1 ++ (runThread (runThread batch s₁).2 s₂).1 ∧
      (runThread batch (s₁ ++ s₂)).2 = (runThread (runThread batch s₁).2 s₂).2 := by
  induction s₁ generalizing batch with
  | nil => simp [runThread]
  | cons x rest ih =>
    rw [List.cons_append, runThread]
    by_cases h : 1024 ≤ (batch ++ [x]).length
    · simp only [if_pos h]
      rw [runThread, if_pos h]
      exact ⟨by rw [(ih []).1, List.cons_append], (ih []).2⟩
    · simp only [if_neg h]
      rw [runThread, if_neg h]
      exact ih (batch ++ [x])

theorem batchStates_length {α : Type} (batch xs : List α) :
    (batchStates batch xs).length = xs.length := by
  induction xs generalizing batch with
  | nil => rfl
  | cons x rest ih =>
    rw [batchStates]
    by_cases h : 1024 ≤ (batch ++ [x]).length
    · simp only [if_pos h, List.length_cons, ih]
    · simp only [if_neg h, List.length_cons, ih]

theorem batchStates_bound {α : Type} (batch xs : List α)
    (hb : batch.length < 1024) :
    ∀ s ∈ batchStates batch xs, s.length ≤ 1024 := by
  induction xs generalizing batch with
  | nil => intro s hs; cases hs
  | cons x rest ih =>
    intro s hs
    have hlen : (batch ++ [x]).length ≤ 1024 := by
      simp only [List.length_append, List.length_singleton]
      omega
    rw [batchStates] at hs
    by_cases h : 1024 ≤ (batch ++ [x]).length
    · rw [if_pos h] at hs
      rcases List.mem_cons.mp hs with hs | hs
      · exact hs ▸ hlen
      · exact ih [] (by simp) s hs
    · rw [if_neg h] at hs
      rcases List.mem_cons.mp hs with hs | hs
      · exact hs ▸ hlen
      · exact ih (batch ++ [x]) (not_le.mp h) s hs

theorem runThread_flush_size {α : Type} (batch xs : List α)
    (hb : batch.length < 1024) :
    ∀ fl ∈ (runThread batch xs).1, fl.length = 1024 := by
  induction xs generalizing batch with
  | nil => intro fl hfl; cases hfl
  | cons x rest ih =>
    intro fl hfl
    rw [runThread] at hfl
    by_cases h : 1024 ≤ (batch ++ [x]).length
    · rw [if_pos h] at hfl
      rcases List.mem_cons.mp hfl with hfl | hfl
      · subst hfl
        simp only [List.length_append, List.length_singleton] at h ⊢
        omega
      · exact ih [] (by simp) fl hfl
    · rw [if_neg h] at hfl
      exact ih (batch ++ [x]) (not_le.mp h) fl hfl

theorem runThread_leftover_lt {α : Type} (batch xs : List α)
    (hb : batch.length < 1024) :
    (runThread batch xs).2.length < 1024 := by
  induction xs generalizing batch with
  | nil => exact hb
  | cons x rest ih =>
    rw [runThread]
    by_cases h : 1024 ≤ (batch ++ [x]).length
    · simp only [if_pos h]
      exact ih [] (by simp)
    · simp only [if_neg h]
      exact ih (batch ++ [x]) (not_le.mp h)

/-! ### Permutation lemmas for the multi-threaded fan-out -/

theorem flatMap_comm_perm {α β γ : Type} (ts : List γ) (L : List α)
    (f : α → γ → List β) :
    (ts.flatMap fun t => L.flatMap fun a => f a t).Perm
      (L.flatMap fun a => ts.flatMap fun t => f a t) := by
  induction ts with
  | nil => simp
  | cons t ts ih =>
    simp only [List.flatMap_cons]
    exact (ih.append_left _).trans (List.flatMap_append_perm L _ _)

theorem range_flatMap_getD {β : Type} (l : List (List β)) (T : ℕ)
    (h : l.length ≤ T) :
    (List.range T).flatMap (fun t => l.getD t []) = l.flatten := by
  induction l generalizing T with
  | nil =>
    simp [List.getD]
  | cons x l2 ih =>
    match T, h with
    | T + 1, h =>
      rw [List.range_succ_eq_map, List.flatMap_cons, List.flatMap_map]
      simp only [List.getD_cons_zero, List.getD_cons_succ, List.flatten_cons]
      rw [ih T (by simpa using h)]

theorem forall₂_mem_zip {α β : Type} {R : α → β → Prop} {l₁ : List α}
    {l₂ : List β} (h : List.Forall₂ R l₁ l₂) :
    ∀ p ∈ l₁.zip l₂, R p.1 p.2 := by
  induction h with
  | nil => intro p hp; cases hp
  | cons hab _ ih =>
    intro p hp
    rcases List.mem_cons.mp hp with hp | hp
    · subst hp; exact hab
    · exact ih p hp

theorem recorded_perm_aux (names : List String) (ts : Option ℤ) (N : ℤ)
    (buckets : BucketConfig) (scheds : List (List (List ℤ))) (T : ℕ)
    (hS : ValidScheds N buckets scheds T) :
    ((List.range T).flatMap (fun t =>
        (runThread [] (threadStream names ts buckets scheds t)).1.flatten ++
          (runThread [] (threadStream names ts buckets scheds t)).2)).Perm
      (allEntries names ts N buckets) := by
  have h1 : ∀ t, (runThread ([] : List Entry)
        (threadStream names ts buckets scheds t)).1.flatten ++
      (runThread [] (threadStream names ts buckets scheds t)).2
        = threadStream names ts buckets scheds t := by
    intro t
    have := runThread_join ([] : List Entry) (threadStream names ts buckets scheds t)
    simpa using this
  simp only [h1]
  simp only [threadStream]
  refine (flatMap_comm_perm _ _ _).trans ?_
  have h3 : ((buckets.zip scheds).flatMap fun p => bucketEntries names ts N p.1)
      = buckets.flatMap (bucketEntries names ts N) := by
    conv_rhs => rw [← List.map_fst_zip buckets scheds (le_of_eq hS.length_eq)]
    rw [List.flatMap_map]
  rw [allEntries, ← h3]
  apply List.Perm.flatMap_left
  intro p hp
  have hR := forall₂_mem_zip hS p hp
  rw [← List.map_flatMap, range_flatMap_getD p.2 T hR.1]
  simp only [bucketEntries]
  exact hR.2.map _

/-- The full-run form: everything recorded (threshold flushes plus the
final drain) is a permutation of all window entries. -/
theorem runRecorded_perm (rows : List InputRow) (buckets : BucketConfig)
    (scheds : List (List (List ℤ))) (T : ℕ)
    (hS : ValidScheds ((orderedRowNames rows).length : ℤ) buckets scheds T) :
    (runRecorded rows buckets scheds T).Perm
      (allEntries (orderedRowNames rows) (globalMaxOrderByTimestamp rows)
        ((orderedRowNames rows).length : ℤ) buckets) :=
  recorded_perm_aux _ _ _ _ _ _ hS

/-! ### Per-bucket counting -/

theorem windowIdxList_length (lo hi : ℤ) :
    (windowIdxList lo hi).length = (hi - lo).toNat := by
  rw [windowIdxList, List.length_map, List.length_range]

theorem mem_bucketEntries_cells {names : List String} {ts : Option ℤ} {N : ℤ}
    {c : String × ℚ × ℚ} {e : Entry} (he : e ∈ bucketEntries names ts N c) :
    e.2 = rowValue c.1 ts := by
  rcases List.mem_map.mp he with ⟨i, -, rfl⟩
  rfl

theorem rowValue_inj {n n' : String} {ts : Option ℤ}
    (h : rowValue n ts = rowValue n' ts) : n = n' := by
  simpa [rowValue] using h

theorem countP_allEntries (names : List String) (ts : Option ℤ) (N : ℤ)
    (buckets : BucketConfig) (b : String × ℚ × ℚ)
    (hnodup : (buckets.map (fun x => x.1)).Nodup) (hb : b ∈ buckets) :
    (allEntries names ts N buckets).countP
        (fun e => decide (e.2 = rowValue b.1 ts))
      = (higherBound b.2 N - lowerBound b.2 N).toNat := by
  induction buckets with
  | nil => cases hb
  | cons c cs ih =>
    rw [List.map_cons, List.nodup_cons] at hnodup
    rw [allEntries, List.flatMap_cons, List.countP_append]
    rcases List.mem_cons.mp hb with rfl | hb2
    · have hhead : (bucketEntries names ts N b).countP
          (fun e => decide (e.2 = rowValue b.1 ts))
            = (bucketEntries names ts N b).length :=
        List.countP_eq_length.mpr
          (fun e he => decide_eq_true (mem_bucketEntries_cells he))
      have htail : (cs.flatMap (bucketEntries names ts N)).countP
          (fun e => decide (e.2 = rowValue b.1 ts)) = 0 := by
        rw [List.countP_eq_zero]
        intro e he
        rcases List.mem_flatMap.mp he with ⟨c', hc', he'⟩
        have hcell := mem_bucketEntries_cells he'
        simp only [hcell, decide_eq_true_eq]
        intro hval
        exact hnodup.1 (List.mem_map.mpr ⟨c', hc', rowValue_inj hval⟩)
      rw [hhead, htail, bucketEntries, List.length_map, windowIdxList_length,
        Nat.add_zero]
    · have hhead : (bucketEntries names ts N c).countP
          (fun e => decide (e.2 = rowValue b.1 ts)) = 0 := by
        rw [List.countP_eq_zero]
        intro e he
        have hcell := mem_bucketEntries_cells he
        simp only [hcell, decide_eq_true_eq]
        intro hval
        exact hnodup.1 (List.mem_map.mpr ⟨b, hb2, (rowValue_inj hval).symm⟩)
      have hrest := ih hnodup.2 hb2
      rw [allEntries] at hrest
      rw [hhead, hrest, Nat.zero_add]

/-- Claim C5: for every bucket window, under any fan-out of the window
indices over the worker threads (any thread count, any distribution to
threads, any per-thread processing order — i.e. any schedule compatible
with `parallelMap`'s each-index-exactly-once guarantee), the run's
recorded output — the threshold flushes plus the end-of-run drain — is a
permutation of all window entries, and for each bucket exactly
`hiIdx - loIdx` assignments carrying that bucket's label are recorded,
each row of the window exactly once. -/
theorem claim_C5 (rows : List InputRow) (buckets : BucketConfig)
    (scheds : List (List (List ℤ))) (T : ℕ)
    (hS : ValidScheds ((orderedRowNames rows).length : ℤ) buckets scheds T)
    (hbn : (buckets.map (fun b => b.1)).Nodup) :
    (runRecorded rows buckets scheds T).Perm
        (allEntries (orderedRowNames rows) (globalMaxOrderByTimestamp rows)
          ((orderedRowNames rows).length : ℤ) buckets) ∧
      ∀ b ∈ buckets,
        (runRecorded rows buckets scheds T).countP
            (fun e => decide (e.2 = rowValue b.1 (globalMaxOrderByTimestamp rows)))
          = (higherBound b.2 ((orderedRowNames rows).length : ℤ)
              - lowerBound b.2 ((orderedRowNames rows).length : ℤ)).toNat := by
  have hperm := runRecorded_perm rows buckets scheds T hS
  refine ⟨hperm, ?_⟩
  intro b hb
  rw [hperm.countP_eq]
  exact countP_allEntries _ _ _ buckets b hbn hb

theorem windowIdxList_append {a b c : ℤ} (hab : a ≤ b) (hbc : b ≤ c) :
    windowIdxList a b ++ windowIdxList b c = windowIdxList a c := by
  rw [windowIdxList, windowIdxList, windowIdxList]
  have h1 : (c - a).toNat = (b - a).toNat + (c - b).toNat := by omega
  rw [h1, List.range_add, List.map_append, List.map_map]
  congr 1
  apply List.map_congr_left
  intro k hk
  simp only [Function.comp]
  omega

/-- The 8-worker split of a 5000-index window: thread `t` processes the
625 consecutive indices `[625·t, 625·t + 625)`. -/
def scheds8 : List (List ℤ) :=
  (List.range 8).map (fun t : ℕ => windowIdxList (625 * (t : ℤ)) (625 * (t : ℤ) + 625))

/-- 5000 input rows named r0..r4999, no order-by timestamps. -/
def rows5000 : List InputRow :=
  (List.range 5000).map (fun k : ℕ => ("r" ++ toString k, []))

/-- A single bucket covering the full percentile range. -/
def bucketsX : BucketConfig := [("x", (0, 100))]

theorem scheds8_flatten : scheds8.flatten = windowIdxList 0 5000 := by
  have gen : ∀ n : ℕ, (((List.range n).map
      (fun t : ℕ => windowIdxList (625 * (t : ℤ)) (625 * (t : ℤ) + 625))).flatten)
        = windowIdxList 0 (625 * (n : ℤ)) := by
    intro n
    induction n with
    | zero => simp [windowIdxList]
    | succ m ih =>
      rw [List.range_succ, List.map_append, List.flatten_append, ih]
      simp only [List.map_cons, List.map_nil, List.flatten_cons, List.flatten_nil,
        List.append_nil]
      have hcast : (625 : ℤ) * ((m + 1 : ℕ) : ℤ) = 625 * (m : ℤ) + 625 := by
        push_cast
        ring
      rw [hcast, windowIdxList_append (by positivity) (by omega)]
  have h := gen 8
  norm_num at h
  rw [scheds8]
  exact h

theorem rows5000_length : ((orderedRowNames rows5000).length : ℤ) = 5000 := by
  rw [orderedRowNames, List.length_map, rows5000, List.length_map, List.length_range]
  norm_num

unseal Rat.mul Rat.inv in
theorem claim_C5_witness :
    ValidScheds ((orderedRowNames rows5000).length : ℤ) bucketsX [scheds8] 8 ∧
      (bucketsX.map (fun b => b.1)).Nodup ∧
      ((runRecorded rows5000 bucketsX [scheds8] 8).Perm
          (allEntries (orderedRowNames rows5000) (globalMaxOrderByTimestamp rows5000)
            ((orderedRowNames rows5000).length : ℤ) bucketsX) ∧
        ∀ b ∈ bucketsX,
          (runRecorded rows5000 bucketsX [scheds8] 8).countP
              (fun e => decide (e.2 = rowValue b.1 (globalMaxOrderByTimestamp rows5000)))
            = (higherBound b.2 ((orderedRowNames rows5000).length : ℤ)
                - lowerBound b.2 ((orderedRowNames rows5000).length : ℤ)).toNat) ∧
      (higherBound ((0 : ℚ), (100 : ℚ)) 5000 - lowerBound ((0 : ℚ), (100 : ℚ)) 5000).toNat
        = 5000 := by
  have hS : ValidScheds ((orderedRowNames rows5000).length : ℤ) bucketsX [scheds8] 8 := by
    refine List.Forall₂.cons ⟨?_, ?_⟩ List.Forall₂.nil
    · rw [scheds8, List.length_map, List.length_range]
    · rw [rows5000_length, scheds8_flatten]
      have hlo : lowerBound (("x", ((0 : ℚ), (100 : ℚ))) : String × ℚ × ℚ).2 5000 = 0 := by
        decide
      have hhi : higherBound (("x", ((0 : ℚ), (100 : ℚ))) : String × ℚ × ℚ).2 5000 = 5000 := by
        decide
      rw [hlo, hhi]
  have hnd : (bucketsX.map (fun b => b.1)).Nodup := by decide
  exact ⟨hS, hnd, claim_C5 rows5000 bucketsX [scheds8] 8 hS hnd, by decide⟩

/-- Claim C8: each thread-local batch grows by one entry per processed
index (one observed batch state per index); as soon as it reaches 1024
entries it is synchronously handed to `recordRows` and cleared, so every
flushed batch holds exactly 1024 entries, no observed batch state ever
exceeds 1024 entries, and the leftover stays below 1024. -/
theorem claim_C8 (batch xs : List Entry) (hb : batch.length < 1024) :
    (batchStates batch xs).length = xs.length ∧
      (∀ s ∈ batchStates batch xs, s.length ≤ 1024) ∧
      (∀ fl ∈ (runThread batch xs).1, fl.length = 1024) ∧
      (runThread batch xs).2.length < 1024 :=
  ⟨batchStates_length batch xs, batchStates_bound batch xs hb,
    runThread_flush_size batch xs hb, runThread_leftover_lt batch xs hb⟩

theorem claim_C8_witness :
    ([] : List Entry).length < 1024 ∧
      ((batchStates ([] : List Entry)
          (List.replicate 3 ("r", rowValue "x" none))).length
          = (List.replicate 3 (("r", rowValue "x" none) : Entry)).length ∧
        (∀ s ∈ batchStates ([] : List Entry)
            (List.replicate 3 ("r", rowValue "x" none)), s.length ≤ 1024) ∧
        (∀ fl ∈ (runThread ([] : List Entry)
            (List.replicate 3 ("r", rowValue "x" none))).1, fl.length = 1024) ∧
        (runThread ([] : List Entry)
          (List.replicate 3 ("r", rowValue "x" none))).2.length < 1024) :=
  ⟨by decide, claim_C8 [] (List.replicate 3 ("r", rowValue "x" none)) (by decide)⟩

/-! ### The global maximum timestamp -/

theorem foldl_dateSetMax_some (l : List ℤ) (x : ℤ) :
    l.foldl dateSetMax (some x) = some (l.foldl max x) := by
  induction l generalizing x with
  | nil => rfl
  | cons t rest ih => exact ih (max x t)

theorem foldl_dateSetMax_none (l : List ℤ) :
    l.foldl dateSetMax none = l.max? := by
  cases l with
  | nil => rfl
  | cons a as =>
    rw [List.foldl_cons]
    show as.foldl dateSetMax (some a) = (a :: as).max?
    rw [foldl_dateSetMax_some, List.max?]

theorem rowMaxTs_eq (acc : Option ℤ) (row : InputRow) :
    rowMaxTs acc row = (row.2.filterMap id).foldl dateSetMax acc := by
  rw [rowMaxTs]
  induction row.2 generalizing acc with
  | nil => rfl
  | cons c rest ih =>
    cases c with
    | none =>
      simp only [List.filterMap_cons, id, List.foldl_cons]
      exact ih acc
    | some t =>
      simp only [List.filterMap_cons, id, List.foldl_cons]
      exact ih (dateSetMax acc t)

theorem globalMaxOrderByTimestamp_eq_max (rows : List InputRow) :
    globalMaxOrderByTimestamp rows = (definedTs rows).max? := by
  rw [globalMaxOrderByTimestamp, ← foldl_dateSetMax_none]
  rw [definedTs]
  induction rows with
  | nil => rfl
  | cons r rest ih =>
    rw [List.foldl_cons, List.flatMap_cons, List.foldl_append, rowMaxTs_eq]
    clear ih
    generalize (r.2.filterMap id).foldl dateSetMax none = acc
    induction rest generalizing acc with
    | nil => rfl
    | cons r2 rest2 ih2 =>
      rw [List.foldl_cons, List.flatMap_cons, List.foldl_append, rowMaxTs_eq, ih2]

/-- Claim C7: every bucket-assignment cell recorded during a run carries
the same timestamp, namely the global maximum over all rows and all
order-by expressions of the defined latest-update timestamps observed
during row collection (`(definedTs rows).max?`, which is `none` when no
defined timestamp was seen). -/
theorem claim_C7 (rows : List InputRow) (buckets : BucketConfig)
    (scheds : List (List (List ℤ))) (T : ℕ)
    (hS : ValidScheds ((orderedRowNames rows).length : ℤ) buckets scheds T) :
    (∀ e ∈ runRecorded rows buckets scheds T, ∀ c ∈ e.2,
        c.2.2 = globalMaxOrderByTimestamp rows) ∧
      globalMaxOrderByTimestamp rows = (definedTs rows).max? := by
  refine ⟨?_, globalMaxOrderByTimestamp_eq_max rows⟩
  intro e he c hc
  have he2 : e ∈ allEntries (orderedRowNames rows) (globalMaxOrderByTimestamp rows)
      ((orderedRowNames rows).length : ℤ) buckets :=
    (runRecorded_perm rows buckets scheds T hS).subset he
  rcases List.mem_flatMap.mp he2 with ⟨b, -, heb⟩
  rw [mem_bucketEntries_cells heb] at hc
  rcases List.mem_cons.mp hc with rfl | hc2
  · rfl
  · cases hc2

/-- Three rows whose order-by expressions carry the defined timestamps
1 < 2 < 3, in mixed order. -/
def rows3 : List InputRow :=
  [("r1", [some 1]), ("r2", [some 3]), ("r3", [some 2])]

def scheds3 : List (List (List ℤ)) := [[[0, 1, 2]]]

unseal Rat.mul Rat.inv in
theorem claim_C7_witness :
    ValidScheds ((orderedRowNames rows3).length : ℤ) bucketsX scheds3 1 ∧
      ((∀ e ∈ runRecorded rows3 bucketsX scheds3 1, ∀ c ∈ e.2,
          c.2.2 = globalMaxOrderByTimestamp rows3) ∧
        globalMaxOrderByTimestamp rows3 = (definedTs rows3).max?) ∧
      globalMaxOrderByTimestamp rows3 = some 3 := by
  have hS : ValidScheds ((orderedRowNames rows3).length : ℤ) bucketsX scheds3 1 := by
    refine List.Forall₂.cons ⟨by decide, ?_⟩ List.Forall₂.nil
    have h : windowIdxList
        (lowerBound (("x", ((0 : ℚ), (100 : ℚ))) : String × ℚ × ℚ).2
          ((orderedRowNames rows3).length : ℤ))
        (higherBound (("x", ((0 : ℚ), (100 : ℚ))) : String × ℚ × ℚ).2
          ((orderedRowNames rows3).length : ℤ)) = [0, 1, 2] := by decide
    rw [h]
    decide
  exact ⟨hS, claim_C7 rows3 bucketsX scheds3 1 hS, by decide⟩

/-! ### Claim C6: drains do not happen between windows -/

/-- Ten input rows named r0..r9, no order-by timestamps. -/
def rows10 : List InputRow :=
  (List.range 10).map (fun k : ℕ => ("r" ++ toString k, []))

/-- The boundary-scenario configuration `{"a": [0,50], "b": [50,100]}`. -/
def bucketsAB : BucketConfig := [("a", (0, 50)), ("b", (50, 100))]

/-- A single worker thread processing window a = [0,5) and then window
b = [5,10), each in index order. -/
def schedsAB : List (List (List ℤ)) := [[[0, 1, 2, 3, 4]], [[5, 6, 7, 8, 9]]]

unseal Rat.mul Rat.inv in
/-- The two-window single-worker schedule above is a valid `parallelMap`
outcome for the 10-row run. -/
theorem validSchedsAB :
    ValidScheds ((orderedRowNames rows10).length : ℤ) bucketsAB schedsAB 1 := by
  refine List.Forall₂.cons ⟨by decide, ?_⟩ (List.Forall₂.cons ⟨by decide, ?_⟩ List.Forall₂.nil)
  · have h : windowIdxList
        (lowerBound (("a", ((0 : ℚ), (50 : ℚ))) : String × ℚ × ℚ).2
          ((orderedRowNames rows10).length : ℤ))
        (higherBound (("a", ((0 : ℚ), (50 : ℚ))) : String × ℚ × ℚ).2
          ((orderedRowNames rows10).length : ℤ)) = [0, 1, 2, 3, 4] := by decide
    rw [h]
    decide
  · have h : windowIdxList
        (lowerBound (("b", ((50 : ℚ), (100 : ℚ))) : String × ℚ × ℚ).2
          ((orderedRowNames rows10).length : ℤ))
        (higherBound (("b", ((50 : ℚ), (100 : ℚ))) : String × ℚ × ℚ).2
          ((orderedRowNames rows10).length : ℤ)) = [5, 6, 7, 8, 9] := by decide
    rw [h]
    decide

unseal Rat.mul Rat.inv in
/-- Claim C6 counterexample: in the 10-row run with buckets a and b and
one worker, the worker's batch after window a holds 5 entries (below the
1024 threshold), and nothing has been handed to `recordRows` when window
b's fan-out starts — the leftovers are NOT drained between windows, the
single drain happens only after the last window (`accum.forEach` runs
after the bucket loop in the source).  The schedule is a valid
`parallelMap` outcome (`validSchedsAB`). -/
theorem claim_C6_counterexample :
    ValidScheds ((orderedRowNames rows10).length : ℤ) bucketsAB schedsAB 1 ∧
      ¬ DrainedBeforeNextWindow rows10 bucketsAB schedsAB 1 := by
  refine ⟨validSchedsAB, ?_⟩
  intro h
  have hmem : (("r0", rowValue "a" (globalMaxOrderByTimestamp rows10)) : Entry)
      ∈ allEntries (orderedRowNames rows10) (globalMaxOrderByTimestamp rows10)
        ((orderedRowNames rows10).length : ℤ) (bucketsAB.take (0 + 1)) := by
    decide
  have hflush := h 0 (by decide) _ hmem
  revert hflush
  decide

theorem mem_getD_mem_flatten {β : Type} {l : List (List β)} {t : ℕ} {x : β}
    (hx : x ∈ l.getD t []) : x ∈ l.flatten := by
  by_cases ht : t < l.length
  · rw [List.getD_eq_getElem l [] ht] at hx
    exact List.mem_flatten.mpr ⟨l.get ⟨t, ht⟩, List.getElem_mem ht, hx⟩
  · rw [List.getD_eq_default] at hx
    · cases hx
    · omega

/-- Claim C6 amended: window k+1's fan-out starts only after window k's
fan-out has fully completed (each thread processes the windows strictly
in sequence), so everything handed to `recordRows` before window k starts
comes from windows 0..k-1; but the sub-1024 leftovers are NOT drained
between windows — the single drain runs after the last window, after
which the recorded output holds every window entry exactly once. -/
theorem claim_C6_amended (rows : List InputRow) (buckets : BucketConfig)
    (scheds : List (List (List ℤ))) (T : ℕ) (k : ℕ)
    (hS : ValidScheds ((orderedRowNames rows).length : ℤ) buckets scheds T) :
    (∀ t, ∀ e ∈ (flushedBeforeWindow rows buckets scheds k t).flatten,
        e ∈ allEntries (orderedRowNames rows) (globalMaxOrderByTimestamp rows)
          ((orderedRowNames rows).length : ℤ) (buckets.take k)) ∧
      (runRecorded rows buckets scheds T).Perm
        (allEntries (orderedRowNames rows) (globalMaxOrderByTimestamp rows)
          ((orderedRowNames rows).length : ℤ) buckets) := by
  refine ⟨?_, runRecorded_perm rows buckets scheds T hS⟩
  intro t e he
  rw [flushedBeforeWindow] at he
  have hstream : e ∈ threadStream (orderedRowNames rows)
      (globalMaxOrderByTimestamp rows) (buckets.take k) (scheds.take k) t := by
    have hj := runThread_join ([] : List Entry)
      (threadStream (orderedRowNames rows) (globalMaxOrderByTimestamp rows)
        (buckets.take k) (scheds.take k) t)
    rw [List.nil_append] at hj
    rw [← hj]
    exact List.mem_append_left _ he
  rw [threadStream] at hstream
  rcases List.mem_flatMap.mp hstream with ⟨⟨b, s⟩, hp, hpe⟩
  rcases List.mem_map.mp hpe with ⟨i, hi, rfl⟩
  have hF : List.Forall₂ (fun (b : String × ℚ × ℚ) (s : List (List ℤ)) =>
      s.length ≤ T ∧ (s.flatten).Perm
        (windowIdxList (lowerBound b.2 ((orderedRowNames rows).length : ℤ))
          (higherBound b.2 ((orderedRowNames rows).length : ℤ))))
      (buckets.take k) (scheds.take k) := List.forall₂_take k hS
  have hR := forall₂_mem_zip hF (b, s) hp
  have hi3 : i ∈ windowIdxList
      (lowerBound b.2 ((orderedRowNames rows).length : ℤ))
      (higherBound b.2 ((orderedRowNames rows).length : ℤ)) :=
    hR.2.subset (mem_getD_mem_flatten hi)
  exact List.mem_flatMap.mpr ⟨b, (List.of_mem_zip hp).1,
    List.mem_map.mpr ⟨i, hi3, rfl⟩⟩

theorem claim_C6_witness :
    ValidScheds ((orderedRowNames rows10).length : ℤ) bucketsAB schedsAB 1 ∧
      ((∀ t, ∀ e ∈ (flushedBeforeWindow rows10 bucketsAB schedsAB 1 t).flatten,
          e ∈ allEntries (orderedRowNames rows10) (globalMaxOrderByTimestamp rows10)
            ((orderedRowNames rows10).length : ℤ) (bucketsAB.take 1)) ∧
        (runRecorded rows10 bucketsAB schedsAB 1).Perm
          (allEntries (orderedRowNames rows10) (globalMaxOrderByTimestamp rows10)
            ((orderedRowNames rows10).length : ℤ) bucketsAB)) :=
  ⟨validSchedsAB, claim_C6_amended rows10 bucketsAB schedsAB 1 1 validSchedsAB⟩

/-! ### Claim C2: contiguous configurations partition the ranked rows -/

/-- The sorted ranges cover the percentile axis contiguously from `l` up
to 100: the first range starts exactly at `l`, each later range starts
where the previous one ended, and the last one ends at 100. -/
def coversFrom : ℚ → List (ℚ × ℚ) → Prop
  | l, [] => l = 100
  | l, r :: rest => r.1 = l ∧ coversFrom r.2 rest

/-- The integer windows `ws` link up exactly from `a` to `b`: each
window is ordered (`lo ≤ hi`) and starts where the previous one ended. -/
def isChain : ℤ → List (ℤ × ℤ) → ℤ → Prop
  | a, [], b => a = b
  | a, w :: ws, b => w.1 = a ∧ w.1 ≤ w.2 ∧ isChain w.2 ws b

theorem isChain_le : ∀ {a : ℤ} {ws : List (ℤ × ℤ)} {b : ℤ}, isChain a ws b → a ≤ b
  | _, [], _, h => le_of_eq h
  | _, _ :: _, _, h =>
    le_trans (le_of_eq h.1.symm) (le_trans h.2.1 (isChain_le h.2.2))

theorem isChain_countP (i : ℤ) :
    ∀ {a : ℤ} {ws : List (ℤ × ℤ)} {b : ℤ}, isChain a ws b →
      ws.countP (fun w => decide (w.1 ≤ i ∧ i < w.2))
        = if a ≤ i ∧ i < b then 1 else 0 := by
  intro a ws b h
  induction ws generalizing a with
  | nil =>
    rw [isChain] at h
    subst h
    rw [List.countP_nil, if_neg (by omega)]
  | cons w ws ih =>
    rw [isChain] at h
    obtain ⟨h1, h2, h3⟩ := h
    have hb := isChain_le h3
    rw [List.countP_cons, ih h3]
    simp only [decide_eq_true_eq]
    split_ifs <;> omega

theorem higherBound_eq_floor {low high : ℚ} {N : ℤ}
    (h0 : 0 ≤ high) (hN : 0 ≤ N) (hne : high ≠ 100) :
    higherBound (low, high) N = ⌊high / 100 * (N : ℚ)⌋ := by
  rw [higherBound, if_neg hne]
  exact cppTrunc_eq_floor
    (mul_nonneg (div_nonneg h0 (by norm_num)) (by exact_mod_cast hN))

theorem coversFrom_chain (N : ℤ) (hN : 0 ≤ N) :
    ∀ (s : List (ℚ × ℚ)) (l : ℚ), s ≠ [] →
      (∀ r ∈ s, 0 ≤ r.1 ∧ r.2 ≤ 100 ∧ r.1 < r.2) → 0 ≤ l → coversFrom l s →
      isChain ⌊l / 100 * (N : ℚ)⌋
        (s.map (fun r => (lowerBound r N, higherBound r N))) N := by
  intro s
  induction s with
  | nil => intro l hne; exact absurd rfl hne
  | cons r rest ih =>
    intro l hne hmem hl hcov
    obtain ⟨hr1, hcov2⟩ := hcov
    obtain ⟨h0r, h100r, hlhr⟩ := hmem r (by simp)
    rw [List.map_cons]
    refine ⟨?_, ?_, ?_⟩
    · show lowerBound r N = ⌊l / 100 * (N : ℚ)⌋
      rw [show r = (r.1, r.2) from rfl, lowerBound_eq_floor h0r hlhr hN, hr1]
    · exact (windowBounds h0r hlhr h100r hN).2.1
    · cases rest with
      | nil =>
        rw [coversFrom] at hcov2
        show isChain (higherBound r N) [] N
        rw [isChain, show r = (r.1, r.2) from rfl, higherBound, if_pos hcov2]
      | cons r2 rest2 =>
        obtain ⟨h0r2, h100r2, hlhr2⟩ := hmem r2 (by simp)
        have hr2eq : r2.1 = r.2 := hcov2.1
        have hne100 : r.2 ≠ 100 := by
          rw [← hr2eq]
          exact ne_of_lt (lt_of_lt_of_le hlhr2 h100r2)
        have hstep : higherBound r N = ⌊r.2 / 100 * (N : ℚ)⌋ := by
          rw [show r = (r.1, r.2) from rfl]
          exact higherBound_eq_floor (le_of_lt (lt_of_le_of_lt h0r hlhr)) hN hne100
        rw [hstep]
        exact ih r.2 (by simp) (fun x hx => hmem x (List.mem_cons_of_mem _ hx))
          (le_of_lt (lt_of_le_of_lt h0r hlhr)) hcov2

theorem mem_windowIdxList {lo hi i : ℤ} :
    i ∈ windowIdxList lo hi ↔ lo ≤ i ∧ i < hi := by
  rw [windowIdxList]
  simp only [List.mem_map, List.mem_range]
  constructor
  · rintro ⟨k, hk, rfl⟩
    omega
  · intro hi2
    exact ⟨(i - lo).toNat, by omega, by omega⟩

unseal Rat.mul Rat.inv in
/-- Claim C2: whenever the validated ranges, after sorting by low bound,
contiguously cover 0 to 100 (first low 0, each high equal to the next
low, last high 100), every rank `0 ≤ i < N` lies in exactly one bucket's
window; in particular with N = 10 and buckets {"a":[0,50],"b":[50,100]},
the window of "a" is the ranks 0..4 and the window of "b" the ranks
5..9. -/
theorem claim_C2 (buckets : BucketConfig) (N : ℤ)
    (hval : validateConfig buckets = .ok ())
    (hcov : coversFrom 0 (sortRanges buckets)) (hN : 0 ≤ N) :
    (∀ i : ℤ, 0 ≤ i → i < N →
        buckets.countP (fun b => decide (i ∈ windowIdxList
          (lowerBound b.2 N) (higherBound b.2 N))) = 1) ∧
      windowIdxList (lowerBound ((0 : ℚ), (50 : ℚ)) 10)
          (higherBound ((0 : ℚ), (50 : ℚ)) 10) = [0, 1, 2, 3, 4] ∧
      windowIdxList (lowerBound ((50 : ℚ), (100 : ℚ)) 10)
          (higherBound ((50 : ℚ), (100 : ℚ)) 10) = [5, 6, 7, 8, 9] := by
  refine ⟨?_, by decide, by decide⟩
  intro i h0i hiN
  obtain ⟨hmem, -⟩ := (validateConfig_ok_iff buckets).mp hval
  have hne : sortRanges buckets ≠ [] := by
    intro habs
    rw [habs, coversFrom] at hcov
    norm_num at hcov
  have hchain := coversFrom_chain N hN (sortRanges buckets) 0 hne hmem
    le_rfl hcov
  have hzero : ⌊(0 : ℚ) / 100 * (N : ℚ)⌋ = 0 := by norm_num
  rw [hzero] at hchain
  have hcount := isChain_countP i hchain
  rw [if_pos ⟨h0i, hiN⟩] at hcount
  rw [List.countP_map] at hcount
  have hsorted : (sortRanges buckets).countP
      (fun r => decide (i ∈ windowIdxList (lowerBound r N) (higherBound r N)))
        = 1 := by
    rw [← hcount]
    apply List.countP_congr
    intro r hr
    simp only [Function.comp, decide_eq_true_eq]
    exact mem_windowIdxList
  have hperm : (sortRanges buckets).Perm (buckets.map (fun b => b.2)) :=
    List.mergeSort_perm _ _
  rw [hperm.countP_eq, List.countP_map] at hsorted
  rw [← hsorted]
  apply List.countP_congr
  intro b hb
  simp only [Function.comp]

unseal Rat.mul Rat.inv in
theorem claim_C2_witness :
    validateConfig bucketsAB = .ok () ∧ coversFrom 0 (sortRanges bucketsAB) ∧
      (0 : ℤ) ≤ 10 ∧
      ((∀ i : ℤ, 0 ≤ i → i < 10 →
          bucketsAB.countP (fun b => decide (i ∈ windowIdxList
            (lowerBound b.2 10) (higherBound b.2 10))) = 1) ∧
        windowIdxList (lowerBound ((0 : ℚ), (50 : ℚ)) 10)
            (higherBound ((0 : ℚ), (50 : ℚ)) 10) = [0, 1, 2, 3, 4] ∧
        windowIdxList (lowerBound ((50 : ℚ), (100 : ℚ)) 10)
            (higherBound ((50 : ℚ), (100 : ℚ)) 10) = [5, 6, 7, 8, 9]) := by
  have hval : validateConfig bucketsAB = .ok () := by
    rw [validateConfig, bucketsAB, sortRanges_eq_of_sorted (by decide)]
    rfl
  have hcov : coversFrom 0 (sortRanges bucketsAB) := by
    rw [bucketsAB, sortRanges_eq_of_sorted (by decide)]
    exact ⟨rfl, rfl, rfl⟩
  exact ⟨hval, hcov, by norm_num, claim_C2 bucketsAB 10 hval hcov (by norm_num)⟩

end Bucketize

namespace JsonImporter

/-- Modelled from the spec: JSON parsing (`Json::Reader`, an external
collaborator library) is abstracted by the outcome of parsing one line —
parsing fails, yields a non-object value, or yields an object whose
flattened columns are the parsed payload (the recursive flattening
`emplaceCol` is not touched by this claim). -/
inductive LineParse where
  | failed
  | nonObject
  | object (cols : List (String × String))
deriving DecidableEq

/-- One input line: its length (`lineLength`; the importer skips empty
lines) and its parse outcome. -/
structure Line where
  len : ℕ
  parse : LineParse
deriving DecidableEq

/-- The two per-line errors `JSONImporter::run` can raise. -/
inductive ImpError where
  | unableToParse (lineNumber : ℤ)
  | notAnObject (lineNumber : ℤ)
deriving DecidableEq

/-- The importer's running state: the two atomic counters and the rows
recorded into the output dataset. -/
structure ImpState where
  errors : ℤ
  recordedLines : ℤ
  recorded : List (String × List (String × String))
deriving DecidableEq

/-- Models the `onLine` lambda of `JSONImporter::run`: an empty line is
skipped; a line that fails to parse — or parses to a non-object — raises
an error when `ignoreBadLines` is false, and only increments the error
counter otherwise; an object line is recorded as row `row(n+1)` and
counted in `recordedLines`. -/
def onLine (ignoreBadLines : Bool) (st : ImpState) (lineNumber : ℤ)
    (line : Line) : Except ImpError ImpState :=
  if line.len = 0 then .ok st
  else
    match line.parse with
    | .failed =>
      if ¬ ignoreBadLines then .error (.unableToParse lineNumber)
      else .ok { st with errors := st.errors + 1 }
    | .nonObject =>
      if ¬ ignoreBadLines then .error (.notAnObject lineNumber)
      else .ok { st with errors := st.errors + 1 }
    | .object cols =>
      .ok { st with
        recordedLines := st.recordedLines + 1,
        recorded := st.recorded ++ [("row" ++ toString (lineNumber + 1), cols)] }

/-- The run over the lines in order: a raised error aborts the remaining
lines. -/
def processLines (ignoreBadLines : Bool) :
    ImpState → ℤ → List Line → Except ImpError ImpState
  | st, _, [] => .ok st
  | st, n, l :: rest =>
    match onLine ignoreBadLines st n l with
    | .error e => .error e
    | .ok st2 => processLines ignoreBadLines st2 (n + 1) rest

/-- A bad line: non-empty, and either unparseable as JSON or parsed to a
non-object value. -/
def BadLine (l : Line) : Prop :=
  l.len ≠ 0 ∧ (l.parse = .failed ∨ l.parse = .nonObject)

/-- Claim C9: with `ignoreBadLines = false` a bad line raises an error
that aborts the run; with `ignoreBadLines = true` it only increments the
error counter (recorded rows and line count unchanged) and the run
continues with the remaining lines.  By contrast the bucketize core has
no skip-and-continue mode: its recording phase is total — under any valid
schedule every row of every configured window is recorded (exactly
once). -/
theorem claim_C9 (st : ImpState) (n : ℤ) (l : Line) (rest : List Line)
    (hbad : BadLine l) :
    (∃ e, onLine false st n l = .error e) ∧
      (∃ e, processLines false st n (l :: rest) = .error e) ∧
      onLine true st n l = .ok { st with errors := st.errors + 1 } ∧
      processLines true st n (l :: rest)
        = processLines true { st with errors := st.errors + 1 } (n + 1) rest ∧
      (∀ (rows : List Bucketize.InputRow) (buckets : Bucketize.BucketConfig)
          (scheds : List (List (List ℤ))) (T : ℕ),
        Bucketize.ValidScheds ((Bucketize.orderedRowNames rows).length : ℤ)
            buckets scheds T →
        (Bucketize.runRecorded rows buckets scheds T).Perm
          (Bucketize.allEntries (Bucketize.orderedRowNames rows)
            (Bucketize.globalMaxOrderByTimestamp rows)
            ((Bucketize.orderedRowNames rows).length : ℤ) buckets)) := by
  obtain ⟨hlen, hparse⟩ := hbad
  have herr : ∃ e, onLine false st n l = .error e := by
    rcases hparse with hp | hp
    · exact ⟨.unableToParse n, by rw [onLine, if_neg hlen, hp]; rfl⟩
    · exact ⟨.notAnObject n, by rw [onLine, if_neg hlen, hp]; rfl⟩
  have hskip : onLine true st n l = .ok { st with errors := st.errors + 1 } := by
    rcases hparse with hp | hp
    · rw [onLine, if_neg hlen, hp]
      rfl
    · rw [onLine, if_neg hlen, hp]
      rfl
  refine ⟨herr, ?_, hskip, ?_, ?_⟩
  · obtain ⟨e, he⟩ := herr
    exact ⟨e, by rw [processLines, he]⟩
  · rw [processLines, hskip]
  · intro rows buckets scheds T hS
    exact Bucketize.runRecorded_perm rows buckets scheds T hS

theorem claim_C9_witness :
    BadLine ⟨5, .failed⟩ ∧
      ((∃ e, onLine false ⟨0, 0, []⟩ 0 ⟨5, .failed⟩ = .error e) ∧
        (∃ e, processLines false ⟨0, 0, []⟩ 0
            [⟨5, .failed⟩, ⟨3, .object [("c", "v")]⟩] = .error e) ∧
        onLine true ⟨0, 0, []⟩ 0 ⟨5, .failed⟩ = .ok ⟨1, 0, []⟩ ∧
        processLines true ⟨0, 0, []⟩ 0 [⟨5, .failed⟩, ⟨3, .object [("c", "v")]⟩]
          = processLines true ⟨1, 0, []⟩ 1 [⟨3, .object [("c", "v")]⟩] ∧
        (∀ (rows : List Bucketize.InputRow) (buckets : Bucketize.BucketConfig)
            (scheds : List (List (List ℤ))) (T : ℕ),
          Bucketize.ValidScheds ((Bucketize.orderedRowNames rows).length : ℤ)
              buckets scheds T →
          (Bucketize.runRecorded rows buckets scheds T).Perm
            (Bucketize.allEntries (Bucketize.orderedRowNames rows)
              (Bucketize.globalMaxOrderByTimestamp rows)
              ((Bucketize.orderedRowNames rows).length : ℤ) buckets))) :=
  ⟨⟨by decide, Or.inl rfl⟩,
    claim_C9 ⟨0, 0, []⟩ 0 ⟨5, .failed⟩ [⟨3, .object [("c", "v")]⟩]
      ⟨by decide, Or.inl rfl⟩⟩

end JsonImporter
